import Mathlib

/-!
Verification development for `blockstatd.py` (graphite-blockstat daemon).

The Python source is shallowly embedded: pure string manipulation becomes
functions on `List Char` / `String`, the mutable `BlockStat` object becomes
explicit state passing on `BlockStatState`, exceptions become `Except PyErr`,
and the network side effects of `GraphiteBuffer.flush` become an explicit
event trace (`NetEvent`) driven by a transport oracle (`Net`).
-/

set_option autoImplicit false

/-- The whitespace characters matched by Python's `str.strip` defaults and by
the regex class `\s` on the ASCII range (space, tab, newline, carriage
return, vertical tab, form feed). -/
def isSpace (c : Char) : Bool :=
  (c == ' ') || (c == '\t') || (c == '\n') || (c == '\r') ||
    (c == '\x0b') || (c == '\x0c')

/-- `str.lstrip()` with default argument (drop leading whitespace). -/
def lstrip (l : List Char) : List Char :=
  l.dropWhile isSpace

/-- `str.rstrip()` with default argument (drop trailing whitespace). -/
def rstrip (l : List Char) : List Char :=
  (l.reverse.dropWhile isSpace).reverse

/-- Worker for `collapseWs`; the flag records whether we are currently inside
a whitespace run that has already produced its single replacement space. -/
def collapseAux : Bool → List Char → List Char
  | _, [] => []
  | inRun, c :: cs =>
    if isSpace c then
      if inRun then collapseAux true cs else ' ' :: collapseAux true cs
    else
      c :: collapseAux false cs

/-- `re.sub("\\s+", " ", s)`: every maximal run of whitespace is replaced by a
single space character. -/
def collapseWs (l : List Char) : List Char :=
  collapseAux false l

/-- `str.split(" ")`: split at every single space character, keeping empty
pieces (`"".split(" ") == [""]`). -/
def splitSp : List Char → List (List Char)
  | [] => [[]]
  | c :: cs =>
    if c = ' ' then
      [] :: splitSp cs
    else
      match splitSp cs with
      | [] => [[c]]
      | t :: ts => (c :: t) :: ts

/-- Value of a non-empty all-digit character list, together with the
validity check: models the digit-string core of Python `int(str)`. -/
def digitsVal (ds : List Char) : Option Nat :=
  if ds = [] then none
  else if ds.all Char.isDigit then
    some (ds.foldl (fun a c => 10 * a + (c.toNat - 48)) 0)
  else none

/-- Python `int(field)` on a whitespace-free field as produced by
`split(" ")`: an optional single sign followed by a non-empty digit string;
`none` models `ValueError`. -/
def pyInt (f : List Char) : Option Int :=
  match f with
  | [] => none
  | c :: ds =>
    if c = '-' then (digitsVal ds).map fun n => -(n : Int)
    else if c = '+' then (digitsVal ds).map fun n => (n : Int)
    else (digitsVal (c :: ds)).map fun n => (n : Int)

/-- The eleven block-layer counters, in the positional order of the kernel
stat record (`class StatType(IntEnum)`). -/
inductive StatType where
  | read_io
  | read_merges
  | read_sectors
  | read_ticks
  | write_io
  | write_merges
  | write_sectors
  | write_ticks
  | in_flight
  | io_ticks
  | time_in_queue
deriving DecidableEq, Fintype

/-- The `IntEnum` value of each counter (its column in the stat record). -/
def StatType.value : StatType → Nat
  | .read_io => 0
  | .read_merges => 1
  | .read_sectors => 2
  | .read_ticks => 3
  | .write_io => 4
  | .write_merges => 5
  | .write_sectors => 6
  | .write_ticks => 7
  | .in_flight => 8
  | .io_ticks => 9
  | .time_in_queue => 10

/-- The symbolic name of each counter (`stat_type.name` in Python). -/
def StatType.sname : StatType → String
  | .read_io => "read_io"
  | .read_merges => "read_merges"
  | .read_sectors => "read_sectors"
  | .read_ticks => "read_ticks"
  | .write_io => "write_io"
  | .write_merges => "write_merges"
  | .write_sectors => "write_sectors"
  | .write_ticks => "write_ticks"
  | .in_flight => "in_flight"
  | .io_ticks => "io_ticks"
  | .time_in_queue => "time_in_queue"

/-- Iteration order of `for stat_type in StatType` (declaration order). -/
def StatType.all : List StatType :=
  [.read_io, .read_merges, .read_sectors, .read_ticks,
   .write_io, .write_merges, .write_sectors, .write_ticks,
   .in_flight, .io_ticks, .time_in_queue]

/-- The Python exceptions that can escape `BlockStat.collect` once the stat
file was readable. -/
inductive PyErr where
  | valueError
  | indexError
deriving DecidableEq

/-- The mutable state of a `BlockStat` object: `self._block`, `self._stats`
(a dict from counter to value, `none` meaning "key absent"), `self._time`. -/
structure BlockStatState where
  block : String
  stats : StatType → Option Int
  time : Int
deriving DecidableEq

/-- `BlockStat.__init__`. -/
def BlockStat.init (block : String) : BlockStatState :=
  { block := block, stats := fun _ => none, time := 0 }

/-- `self._stats[stat_type] = v` (dict assignment). -/
def dictInsert (d : StatType → Option Int) (t : StatType) (v : Int) :
    StatType → Option Int :=
  fun u => if u = t then some v else d u

/-- The field list produced inside `BlockStat.collect` from the raw file
content: `lstrip().rstrip()`, then `re.sub("\\s+", " ", _)`, then
`split(" ")`. -/
def pipelineFields (s : String) : List (List Char) :=
  splitSp (collapseWs (rstrip (lstrip s.data)))

/-- The `for stat_type in StatType` loop of `BlockStat.collect`:
`self._stats[stat_type] = int(blockstat_map[stat_type.value])`, where an
out-of-range index raises `IndexError` (uncaught) and a failed conversion
raises `ValueError` (logged and re-raised). -/
def collectLoop (stats : StatType → Option Int) (fields : List (List Char)) :
    List StatType → Except PyErr (StatType → Option Int)
  | [] => Except.ok stats
  | t :: ts =>
    match fields.get? t.value with
    | none => Except.error PyErr.indexError
    | some f =>
      match pyInt f with
      | none => Except.error PyErr.valueError
      | some v => collectLoop (dictInsert stats t v) fields ts

/-- `BlockStat.collect`.  `now` is `int(time.time())`; `content` is the
result of opening and reading `/sys/block/<block>/stat` (`none` models an
`IOError`).  On `IOError` the source executes `_stats = dict()` — an
assignment to a LOCAL variable, so `self._stats` keeps its old entries —
sets `self._time = 0.0` and returns normally. -/
def collect (st : BlockStatState) (now : Int) (content : Option String) :
    Except PyErr BlockStatState :=
  let st := { st with time := now }
  match content with
  | none => Except.ok { st with time := 0 }
  | some s =>
    (collectLoop st.stats (pipelineFields s) StatType.all).map
      fun d => { st with stats := d }

/-- `ASendBuffer._messages` is a plain string; `put` separates with a newline
exactly when the buffer is non-empty (Python string truthiness). -/
def ASendBuffer.put (messages : String) (message : String) : String :=
  let messages := if messages ≠ "" then messages ++ "\n" else messages
  messages ++ message

/-- `ASendBuffer.get_messages`. -/
def ASendBuffer.getMessages (messages : String) : String :=
  messages

/-- `ASendBuffer.clear`. -/
def ASendBuffer.clear (_ : String) : String :=
  ""

/-- `socket.gethostname().split('.', 1)[0]`: the host name truncated at the
first domain separator. -/
def shortHost (h : String) : String :=
  String.mk (h.data.takeWhile fun c => c != '.')

/-- Hinnant civil-from-days: day count since the Unix epoch to a
(year, month, day) triple of the proleptic Gregorian calendar; models the
date part of `datetime.datetime.fromtimestamp`. -/
def civilFromDays (z : Int) : Int × Nat × Nat :=
  let z := z + 719468
  let era : Int := z.ediv 146097
  let doe : Nat := (z.emod 146097).toNat
  let yoe : Nat := (doe - doe / 1460 + doe / 36524 - doe / 146096) / 365
  let doy : Nat := doe - (365 * yoe + yoe / 4 - yoe / 100)
  let mp : Nat := (5 * doy + 2) / 153
  let d : Nat := doy - (153 * mp + 2) / 5 + 1
  let m : Nat := if mp < 10 then mp + 3 else mp - 9
  ((yoe : Int) + era * 400 + (if m ≤ 2 then 1 else 0), m, d)

/-- Zero-padding to two digits (`%m`, `%d`, `%H`, `%M`, `%S`). -/
def pad2 (n : Nat) : String :=
  if n < 10 then "0" ++ toString n else toString n

/-- Zero-padding of the year to four digits (`%Y` in CPython). -/
def yearStr (y : Int) : String :=
  if y < 0 then toString y
  else if y < 10 then "000" ++ toString y
  else if y < 100 then "00" ++ toString y
  else if y < 1000 then "0" ++ toString y
  else toString y

/-- `datetime.datetime.fromtimestamp(the_time).strftime('%Y-%m-%d %H:%M:%S')`,
with the ambient local time zone made explicit as an offset `tz` in seconds
east of UTC. -/
def prettyTime (tz : Int) (t : Int) : String :=
  let loc := t + tz
  let days := loc.ediv 86400
  let secs := (loc.emod 86400).toNat
  let c := civilFromDays days
  yearStr c.1 ++ "-" ++ pad2 c.2.1 ++ "-" ++ pad2 c.2.2 ++ " " ++
    pad2 (secs / 3600) ++ ":" ++ pad2 (secs % 3600 / 60) ++ ":" ++
    pad2 (secs % 60)

/-- The line built by `HumanOutput.send`:
`"{0} {2}[{1}]: {3}".format(pretty_time, stat_type.name, block, str(stat))`,
i.e. `<pretty_time> <block>[<counter name>]: <value>`. -/
def humanLine (tz : Int) (t : Int) (ty : StatType) (block : String)
    (stat : Int) : String :=
  prettyTime tz t ++ " " ++ block ++ "[" ++ ty.sname ++ "]: " ++ toString stat

/-- The line built by `GraphiteOutput.send`:
`"blockstat.{4}.{2}.{1} {3} {0}".format(the_time, name, block, stat, short_hostname)`,
with the ambient host name made explicit as `host`. -/
def graphiteLine (host : String) (t : Int) (ty : StatType) (block : String)
    (stat : Int) : String :=
  "blockstat." ++ shortHost host ++ "." ++ block ++ "." ++ ty.sname ++ " " ++
    toString stat ++ " " ++ toString t

/-- Observable network operations performed by `GraphiteBuffer.flush`. -/
inductive NetEvent where
  | sockCreate
  | connectAttempt (ok : Bool)
  | send (ok : Bool) (payload : String)
  | close
deriving DecidableEq

/-- A transport oracle: whether the connect / send of the 0-based attempt
number would succeed, were it issued on a live socket. -/
structure Net where
  connectOk : Nat → Bool
  sendOk : Nat → Bool

/-- `HumanOutput.send`: formats and appends to the buffer; the event list
records that no network operation is performed. -/
def humanSend (tz : Int) (buf : String) (t : Int) (ty : StatType)
    (block : String) (stat : Int) : String × List NetEvent :=
  (ASendBuffer.put buf (humanLine tz t ty block stat), [])

/-- `GraphiteOutput.send`: formats (reading the ambient host name) and
appends to the buffer; the event list records that no network operation is
performed. -/
def graphiteSend (host : String) (buf : String) (t : Int) (ty : StatType)
    (block : String) (stat : Int) : String × List NetEvent :=
  (ASendBuffer.put buf (graphiteLine host t ty block stat), [])

/-- The `for attempt in range(0, 3)` loop of `GraphiteBuffer.flush`.
`n` is the attempt number, `r` the remaining iterations, `closed` whether
`graphite_server.close()` has already been executed on the single socket
object created before the loop.  `connect` on a closed socket raises, which
the `except` clause turns into a warning and `continue`; a send failure
closes the socket and continues; a full send clears the buffer and breaks. -/
def flushAttempts (net : Net) (buf : String) :
    Nat → Nat → Bool → String × List NetEvent
  | _, 0, _ => (buf, [])
  | n, r + 1, closed =>
    if closed || !net.connectOk n then
      let rest := flushAttempts net buf (n + 1) r closed
      (rest.1, NetEvent.connectAttempt false :: rest.2)
    else if net.sendOk n then
      ("", [NetEvent.connectAttempt true, NetEvent.send true (buf ++ "\n")])
    else
      let rest := flushAttempts net buf (n + 1) r true
      (rest.1, NetEvent.connectAttempt true ::
        NetEvent.send false (buf ++ "\n") :: NetEvent.close :: rest.2)

/-- `GraphiteBuffer.flush`: one socket object is created before the loop and
closed unconditionally after it; the result is the final buffer content and
the trace of network operations.  All exceptions are caught inside, so flush
is total (never raises to its caller). -/
def flush (net : Net) (buf : String) : String × List NetEvent :=
  let r := flushAttempts net buf 0 3 false
  (r.1, NetEvent.sockCreate :: r.2 ++ [NetEvent.close])

/-- Event classifiers and counters over a flush trace. -/
def isConnect : NetEvent → Bool
  | .connectAttempt _ => true
  | _ => false

def isCreate : NetEvent → Bool
  | .sockCreate => true
  | _ => false

def isClose : NetEvent → Bool
  | .close => true
  | _ => false

def isSendFail : NetEvent → Bool
  | .send false _ => true
  | _ => false

def isSendOk : NetEvent → Bool
  | .send true _ => true
  | _ => false

def countE (p : NetEvent → Bool) (evs : List NetEvent) : Nat :=
  (evs.filter p).length

/-- Every send event in the trace carries the given payload. -/
def sendPayloadIs (p : String) : NetEvent → Bool
  | .send _ q => q == p
  | _ => true

/-- The collection phase of one `MainClass._do_metrics` cycle:
`for blockstat in blockstats: blockstat.collect()`.  `fs` maps a device
name to the readable content of its stat file (`none` models `IOError`).
No exception is caught here, so the first raise aborts the loop. -/
def collectAll (now : Int) (fs : String → Option String) :
    List BlockStatState → Except PyErr (List BlockStatState)
  | [] => Except.ok []
  | st :: rest =>
    match collect st now (fs st.block) with
    | Except.error e => Except.error e
    | Except.ok st' => (collectAll now fs rest).map fun l => st' :: l

/-- Concrete transports used in the flush theorems. -/
def netConnThird : Net :=
  { connectOk := fun n => n == 2, sendOk := fun _ => true }

def netAllFail : Net :=
  { connectOk := fun _ => false, sendOk := fun _ => true }

def netSendFail : Net :=
  { connectOk := fun _ => true, sendOk := fun _ => false }

def netSendFailThenOk : Net :=
  { connectOk := fun _ => true, sendOk := fun n => n != 0 }

/-- Concatenation of alternating (separator, field) pairs, used to describe
a raw record `w0 ++ (f0 ++ tailJoin rest) ++ w1` whose fields are
`f0 :: rest.map (fun p => p.2)`. -/
def tailJoin : List (List Char × List Char) → List Char
  | [] => []
  | (s, g) :: r => s ++ g ++ tailJoin r

/-- The same fields joined by single spaces (the shape after whitespace
collapsing). -/
def spacedTail : List (List Char × List Char) → List Char
  | [] => []
  | (_, g) :: r => ' ' :: (g ++ spacedTail r)

/-- A non-empty whitespace-free word. -/
def neWord (f : List Char) : Prop :=
  f ≠ [] ∧ f.all (fun c => !isSpace c) = true

/-- A non-empty all-whitespace run. -/
def neSpace (s : List Char) : Prop :=
  s ≠ [] ∧ s.all isSpace = true

/-- A non-empty all-decimal-digit word. -/
def digitsWord (f : List Char) : Prop :=
  f ≠ [] ∧ f.all Char.isDigit = true

instance (f : List Char) : Decidable (neWord f) := by
  unfold neWord; infer_instance

instance (s : List Char) : Decidable (neSpace s) := by
  unfold neSpace; infer_instance

instance (f : List Char) : Decidable (digitsWord f) := by
  unfold digitsWord; infer_instance

/-- Separator/field pairs of a concrete valid 11-field record. -/
def c5Rest : List (List Char × List Char) :=
  [([' '], ['2']), (['\t'], ['3']), ([' '], ['4']), ([' '], ['5']),
   ([' '], ['6']), ([' '], ['7']), ([' '], ['8']), ([' '], ['9']),
   ([' '], ['1', '0']), ([' '], ['1', '1'])]

/-! ### Basic buffer and formatter theorems -/

/-- C9: `put(line)` appends `line` preceded by a separating newline exactly
when the buffer is non-empty; from an empty buffer, `put("a"); put("b")`
makes `get_messages()` return `"a\nb"`; `clear()` empties unconditionally. -/
theorem c9_put_clear_contract :
    (∀ b m : String, b ≠ "" → ASendBuffer.put b m = b ++ "\n" ++ m) ∧
    (∀ m : String, ASendBuffer.put "" m = m) ∧
    ASendBuffer.getMessages
      (ASendBuffer.put (ASendBuffer.put (ASendBuffer.clear "junk") "a") "b") =
        "a\nb" ∧
    (∀ b : String, ASendBuffer.clear b = "") := by
  refine ⟨fun b m h => ?_, fun m => rfl, by decide, fun b => rfl⟩
  simp [ASendBuffer.put, h, String.append_assoc]

/-- Witness for C9 at the concrete non-empty buffer "a". -/
theorem c9_put_clear_contract_witness :
    ("a" : String) ≠ "" ∧ ASendBuffer.put "a" "b" = "a" ++ "\n" ++ "b" :=
  ⟨by decide, c9_put_clear_contract.1 "a" "b" (by decide)⟩

/-- A sample object holding values from an earlier successful cycle. -/
def c1Input : BlockStatState :=
  { block := "sda",
    stats := dictInsert (fun _ => none) StatType.read_io 5,
    time := 100 }

/-- C1 (code bug): on an unreadable stat file, `collect` returns normally
and zeroes `self._time`, but the `except IOError` branch executes
`_stats = dict()` — binding a LOCAL variable — so `self._stats` keeps the
values of the earlier cycle instead of becoming the empty mapping the
sentinel state requires. -/
theorem c1_ioerror_keeps_old_values :
    ∃ st', collect c1Input 7 none = Except.ok st' ∧
      st'.time = 0 ∧ st'.stats StatType.read_io = some 5 :=
  ⟨{ c1Input with time := 0 }, rfl, rfl, rfl⟩

/-- C2 (counterexample): the human-mode line does NOT have the counter name
before the brackets and the device inside; at device "sda" and counter
read_io the claimed shape differs from the produced line. -/
theorem c2_counterexample :
    humanLine 0 1000000000 StatType.read_io "sda" 42 ≠
      prettyTime 0 1000000000 ++ " " ++ StatType.sname StatType.read_io ++
        "[" ++ "sda" ++ "]: " ++ toString (42 : Int) := by
  decide

/-- C2 (amended): the human-mode line has the shape
`<YYYY-MM-DD HH:MM:SS> <device>[<CounterName>]: <value>` — the DEVICE name
before the brackets and the counter name inside them; the timestamp prefix
renders as local `YYYY-MM-DD HH:MM:SS`, checked at concrete instants. -/
theorem c2_human_line_device_first :
    (∀ (tz t : Int) (ty : StatType) (block : String) (stat : Int),
      humanLine tz t ty block stat =
        prettyTime tz t ++ " " ++ block ++ "[" ++ StatType.sname ty ++
          "]: " ++ toString stat) ∧
    prettyTime 0 1000000000 = "2001-09-09 01:46:40" ∧
    prettyTime 0 0 = "1970-01-01 00:00:00" ∧
    humanLine 0 1000000000 StatType.read_io "sda" 42 =
      "2001-09-09 01:46:40 sda[read_io]: 42" :=
  ⟨fun _ _ _ _ _ => rfl, by decide, by decide, by decide⟩

/-- C8 (counterexample): the machine-mode formatter is not independent of
ambient state — with equal timestamp, counter, device, value and buffer,
two different ambient host names yield different lines. -/
theorem c8_counterexample :
    (graphiteSend "hosta" "" 0 StatType.read_io "sda" 1).1 ≠
      (graphiteSend "hostb" "" 0 StatType.read_io "sda" 1).1 := by
  decide

/-- C8 (amended): formatting is total and performs no network I/O (the event
trace of either `send` is empty), and its effect on the buffer is exactly
appending one line determined by the arguments together with the ambient
environment (local time zone for human mode, host name for machine mode). -/
theorem c8_format_pure_given_env :
    ∀ (tz : Int) (host : String) (t : Int) (ty : StatType)
      (block : String) (stat : Int) (buf : String),
      (humanSend tz buf t ty block stat).2 = [] ∧
      (graphiteSend host buf t ty block stat).2 = [] ∧
      (humanSend tz buf t ty block stat).1 =
        ASendBuffer.put buf (humanLine tz t ty block stat) ∧
      (graphiteSend host buf t ty block stat).1 =
        ASendBuffer.put buf (graphiteLine host t ty block stat) :=
  fun _ _ _ _ _ _ _ => ⟨rfl, rfl, rfl, rfl⟩

/-! ### Flush trace lemmas -/

theorem countE_nil (p : NetEvent → Bool) : countE p [] = 0 := rfl

theorem countE_cons (p : NetEvent → Bool) (e : NetEvent) (l : List NetEvent) :
    countE p (e :: l) = (if p e then 1 else 0) + countE p l := by
  simp only [countE, List.filter_cons]
  split <;> simp [Nat.add_comm]

theorem countE_append (p : NetEvent → Bool) (l₁ l₂ : List NetEvent) :
    countE p (l₁ ++ l₂) = countE p l₁ + countE p l₂ := by
  simp [countE, List.filter_append]

theorem any_replicate_false {p : NetEvent → Bool} {a : NetEvent}
    (h : p a = false) (n : Nat) : (List.replicate n a).any p = false := by
  induction n with
  | zero => rfl
  | succ n ih => simp [List.replicate_succ, h, ih]

/-- Once the single socket has been closed, every remaining loop iteration
fails at connect time and the buffer is untouched. -/
theorem fa_closed (net : Net) (buf : String) :
    ∀ (r n : Nat),
      flushAttempts net buf n r true =
        (buf, List.replicate r (NetEvent.connectAttempt false)) := by
  intro r
  induction r with
  | zero => intro n; rfl
  | succ r ih => intro n; simp [flushAttempts, ih, List.replicate_succ]

theorem fa_connect_le (net : Net) (buf : String) :
    ∀ (r n : Nat) (closed : Bool),
      countE isConnect (flushAttempts net buf n r closed).2 ≤ r := by
  intro r
  induction r with
  | zero => intro n closed; simp [flushAttempts, countE_nil]
  | succ r ih =>
    intro n closed
    simp only [flushAttempts]
    cases hc : closed || !net.connectOk n with
    | true =>
      simp only [hc, if_true, countE_cons, isConnect]
      have := ih (n + 1) closed
      omega
    | false =>
      cases hs : net.sendOk n with
      | true => simp [hc, hs, countE_cons, countE_nil, isConnect]
      | false =>
        simp only [hc, hs, if_false, Bool.false_eq_true, countE_cons, isConnect]
        have := ih (n + 1) true
        simp only [if_true, if_false]
        omega

theorem fa_create_zero (net : Net) (buf : String) :
    ∀ (r n : Nat) (closed : Bool),
      countE isCreate (flushAttempts net buf n r closed).2 = 0 := by
  intro r
  induction r with
  | zero => intro n closed; rfl
  | succ r ih =>
    intro n closed
    simp only [flushAttempts]
    cases hc : closed || !net.connectOk n with
    | true => simp [hc, countE_cons, isCreate, ih (n + 1) closed]
    | false =>
      cases hs : net.sendOk n with
      | true => simp [hc, hs, countE_cons, countE_nil, isCreate]
      | false => simp [hc, hs, countE_cons, isCreate, ih (n + 1) true]

theorem fa_close_eq_sendfail (net : Net) (buf : String) :
    ∀ (r n : Nat) (closed : Bool),
      countE isClose (flushAttempts net buf n r closed).2 =
        countE isSendFail (flushAttempts net buf n r closed).2 := by
  intro r
  induction r with
  | zero => intro n closed; rfl
  | succ r ih =>
    intro n closed
    simp only [flushAttempts]
    cases hc : closed || !net.connectOk n with
    | true => simp [hc, countE_cons, isClose, isSendFail, ih (n + 1) closed]
    | false =>
      cases hs : net.sendOk n with
      | true => simp [hc, hs, countE_cons, countE_nil, isClose, isSendFail]
      | false => simp [hc, hs, countE_cons, isClose, isSendFail, ih (n + 1) true]

/-- Every send inside the retry loop carries the buffer content plus the one
extra trailing newline. -/
theorem fa_payload (net : Net) (buf : String) :
    ∀ (r n : Nat) (closed : Bool),
      ((flushAttempts net buf n r closed).2).all
        (sendPayloadIs (buf ++ "\n")) = true := by
  intro r
  induction r with
  | zero => intro n closed; rfl
  | succ r ih =>
    intro n closed
    simp only [flushAttempts]
    cases hc : closed || !net.connectOk n with
    | true => simp [hc, sendPayloadIs, ih (n + 1) closed]
    | false =>
      cases hs : net.sendOk n with
      | true => simp [hc, hs, sendPayloadIs]
      | false => simp [hc, hs, sendPayloadIs, ih (n + 1) true]

/-- If every attempt in the window would fail (at connect or at send), the
loop leaves the buffer untouched. -/
theorem fa_all_fail (net : Net) (buf : String) :
    ∀ (r n : Nat) (closed : Bool),
      (∀ k, n ≤ k → k < n + r →
        net.connectOk k = false ∨ net.sendOk k = false) →
      (flushAttempts net buf n r closed).1 = buf := by
  intro r
  induction r with
  | zero => intro n closed _; rfl
  | succ r ih =>
    intro n closed h
    simp only [flushAttempts]
    cases hc : closed || !net.connectOk n with
    | true =>
      simp only [hc, if_true]
      exact ih (n + 1) closed fun k h1 h2 => h k (by omega) (by omega)
    | false =>
      have hcon : net.connectOk n = true := by
        cases hcc : net.connectOk n with
        | true => rfl
        | false => simp [hcc] at hc
      have hsend : net.sendOk n = false := by
        rcases h n (by omega) (by omega) with h' | h'
        · rw [hcon] at h'; exact absurd h' (by simp)
        · exact h'
      simp [hc, hsend, fa_closed]

/-- A send-time failure closes the shared socket, so no later attempt of the
same call can send; the buffer survives. -/
theorem fa_sendfail (net : Net) (buf : String) :
    ∀ (r n : Nat) (closed : Bool),
      ((flushAttempts net buf n r closed).2).any isSendFail = true →
      (flushAttempts net buf n r closed).1 = buf ∧
      ((flushAttempts net buf n r closed).2).any isSendOk = false := by
  intro r
  induction r with
  | zero => intro n closed h; exact absurd h (by simp [flushAttempts])
  | succ r ih =>
    intro n closed h
    simp only [flushAttempts] at h ⊢
    cases hc : closed || !net.connectOk n with
    | true =>
      simp only [hc, if_true] at h ⊢
      simp only [List.any_cons, isSendFail, Bool.false_or] at h
      have := ih (n + 1) closed h
      simp [isSendOk, this.1, this.2]
    | false =>
      cases hs : net.sendOk n with
      | true =>
        simp only [hc, hs, if_true, if_false, Bool.false_eq_true] at h
        simp [isSendFail] at h
      | false =>
        simp only [hc, hs, if_false, Bool.false_eq_true] at h ⊢
        rw [fa_closed]
        refine ⟨rfl, ?_⟩
        simp [isSendOk,
          any_replicate_false (p := isSendOk)
            (a := NetEvent.connectAttempt false) rfl r]

theorem getLast?_append_single {α : Type} :
    ∀ (l : List α) (a : α), (l ++ [a]).getLast? = some a
  | [], _ => rfl
  | b :: l, a => by
    rw [List.cons_append]
    cases l with
    | nil => rfl
    | cons c l =>
      rw [List.cons_append, List.getLast?_cons_cons, ← List.cons_append]
      exact getLast?_append_single (c :: l) a

/-- A dot-free prefix is exactly what `split('.', 1)[0]` keeps. -/
theorem takeWhile_no_dot :
    ∀ (a : List Char), (∀ c ∈ a, c ≠ '.') → ∀ (b : List Char),
      (a ++ '.' :: b).takeWhile (fun c => c != '.') = a := by
  intro a
  induction a with
  | nil => intro _ b; simp [List.takeWhile_cons]
  | cons c cs ih =>
    intro h b
    have hbc : (c != '.') = true := by simp [h c (by simp)]
    simp [List.takeWhile_cons, hbc, ih (fun x hx => h x (by simp [hx])) b]

/-! ### Flush claim theorems -/

/-- C3: a networked flush makes at most 3 connection attempts; if the first
`n` attempts fail at connect and attempt `n` connects and sends, the buffer
is cleared after exactly `n + 1` connection attempts (early exit); if every
attempt would fail, the buffer is exactly what it was before the call (and
`flush`, being a total function, returns without raising).  The two concrete
transports of the claim are checked: connect failures on attempts 1 and 2
with success on attempt 3 clear the buffer after exactly 3 connection
attempts; three connect failures leave the buffer unchanged. -/
theorem c3_flush_retry_policy :
    (∀ (net : Net) (buf : String),
      countE isConnect (flush net buf).2 ≤ 3) ∧
    (∀ (net : Net) (buf : String) (n : Nat), n < 3 →
      (∀ k, k < n → net.connectOk k = false) →
      net.connectOk n = true → net.sendOk n = true →
      (flush net buf).1 = "" ∧ countE isConnect (flush net buf).2 = n + 1) ∧
    (∀ (net : Net) (buf : String),
      (∀ n, n < 3 → net.connectOk n = false ∨ net.sendOk n = false) →
      (flush net buf).1 = buf) ∧
    (∀ buf : String, (flush netConnThird buf).1 = "" ∧
      countE isConnect (flush netConnThird buf).2 = 3) ∧
    (∀ buf : String, (flush netAllFail buf).1 = buf) := by
  refine ⟨fun net buf => ?_, fun net buf n hn hk hc hs => ?_,
    fun net buf h => ?_, fun buf => ?_, fun buf => ?_⟩
  · simp only [flush, countE_cons, countE_append, isConnect, if_false,
      Bool.false_eq_true]
    have := fa_connect_le net buf 3 0 false
    simp only [countE_cons, countE_nil, isConnect]
    omega
  · interval_cases n
    · simp [flush, flushAttempts, hc, hs, countE_cons, countE_append,
        countE_nil, isConnect]
    · have h0 := hk 0 (by omega)
      simp [flush, flushAttempts, h0, hc, hs, countE_cons, countE_append,
        countE_nil, isConnect]
    · have h0 := hk 0 (by omega)
      have h1 := hk 1 (by omega)
      simp [flush, flushAttempts, h0, h1, hc, hs, countE_cons, countE_append,
        countE_nil, isConnect]
  · simp only [flush]
    exact fa_all_fail net buf 3 0 false fun k h1 h2 => h k (by omega)
  · simp [flush, flushAttempts, netConnThird, countE_cons, countE_append,
      countE_nil, isConnect]
  · simp [flush, flushAttempts, netAllFail]

/-- Witness for C3: with a transport whose connects fail on attempts 1 and 2
and succeed on attempt 3, and with one that always fails, the hypotheses of
the general parts hold concretely. -/
theorem c3_flush_retry_policy_witness :
    ((flush netConnThird "m").1 = "" ∧
      countE isConnect (flush netConnThird "m").2 = 2 + 1) ∧
    (flush netAllFail "m").1 = "m" :=
  ⟨c3_flush_retry_policy.2.1 netConnThird "m" 2 (by decide) (by decide)
      (by decide) (by decide),
    c3_flush_retry_policy.2.2.1 netAllFail "m" (by decide)⟩

/-- C4 (counterexample): with three failed connects there are 3 connection
attempts but only one socket creation and only one close — the socket is not
fresh per attempt and is not closed on every per-attempt exit path.  The
reuse is observable in behaviour: with a transport that fails the first send
and would accept every later connect and send, a fresh-socket-per-attempt
flush would deliver on attempt 2, yet the buffer is left unchanged. -/
theorem c4_counterexample :
    countE isConnect (flush netAllFail "x").2 = 3 ∧
    countE isCreate (flush netAllFail "x").2 = 1 ∧
    countE isClose (flush netAllFail "x").2 = 1 ∧
    netSendFailThenOk.connectOk 1 = true ∧ netSendFailThenOk.sendOk 1 = true ∧
    (flush netSendFailThenOk "x").1 = "x" := by
  decide

/-- C4 (amended): each flush call creates exactly ONE socket object, shared
by all its attempts; the socket is closed once after each failed send and
once, unconditionally, after the loop — so the number of closes is the
number of failed sends plus one, and the final trace event is that closing. -/
theorem c4_single_socket_per_flush :
    ∀ (net : Net) (buf : String),
      countE isCreate (flush net buf).2 = 1 ∧
      countE isClose (flush net buf).2 =
        countE isSendFail (flush net buf).2 + 1 ∧
      ((flush net buf).2).getLast? = some NetEvent.close := by
  intro net buf
  refine ⟨?_, ?_, ?_⟩
  · simp [flush, countE_cons, countE_append, countE_nil, isCreate,
      fa_create_zero net buf 3 0 false]
  · simp [flush, countE_cons, countE_append, countE_nil, isClose, isSendFail,
      fa_close_eq_sendfail net buf 3 0 false]
  · show ((NetEvent.sockCreate :: (flushAttempts net buf 0 3 false).2) ++
      [NetEvent.close]).getLast? = some NetEvent.close
    exact getLast?_append_single _ _

/-- C10: within one flush call the single shared socket is closed at the
first send-time failure; afterwards no attempt of the same call can complete
a send, so no successful send appears in the trace and the buffer keeps its
original content. -/
theorem c10_send_fail_dooms_call :
    ∀ (net : Net) (buf : String),
      ((flush net buf).2).any isSendFail = true →
      (flush net buf).1 = buf ∧
      ((flush net buf).2).any isSendOk = false ∧
      countE isCreate (flush net buf).2 = 1 := by
  intro net buf h
  have h' : ((flushAttempts net buf 0 3 false).2).any isSendFail = true := by
    simpa [flush, isSendFail] using h
  have := fa_sendfail net buf 3 0 false h'
  refine ⟨?_, ?_, ?_⟩
  · simp only [flush]
    exact this.1
  · simp [flush, List.any_cons, List.any_append, isSendOk, this.2]
  · simp [flush, countE_cons, countE_append, countE_nil, isCreate,
      fa_create_zero net buf 3 0 false]

/-- Witness for C10: a transport that always fails at send time produces a
send-failure event on its first attempt. -/
theorem c10_send_fail_dooms_call_witness :
    ((flush netSendFail "w").2).any isSendFail = true ∧
    ((flush netSendFail "w").1 = "w" ∧
      ((flush netSendFail "w").2).any isSendOk = false ∧
      countE isCreate (flush netSendFail "w").2 = 1) :=
  ⟨by decide, c10_send_fail_dooms_call netSendFail "w" (by decide)⟩

/-- C7: the machine-mode line for device "sda", counter read_io = 42,
timestamp 1000000000 and host "h" is exactly
`blockstat.h.sda.read_io 42 1000000000`; the host name is truncated at the
first domain separator; and every send of a networked flush carries the
buffered batch terminated by one extra trailing newline. -/
theorem c7_graphite_line_and_batch :
    graphiteLine "h" 1000000000 StatType.read_io "sda" 42 =
      "blockstat.h.sda.read_io 42 1000000000" ∧
    (∀ (a b : List Char), (∀ c ∈ a, c ≠ '.') →
      shortHost (String.mk (a ++ '.' :: b)) = String.mk a) ∧
    (∀ (net : Net) (buf : String),
      ((flush net buf).2).all (sendPayloadIs (buf ++ "\n")) = true) := by
  refine ⟨by decide, fun a b h => ?_, fun net buf => ?_⟩
  · exact congrArg String.mk (takeWhile_no_dot a h b)
  · simp [flush, List.all_cons, List.all_append, sendPayloadIs,
      fa_payload net buf 3 0 false]

/-- Witness for C7: the dot-free prefix "host" of "host.com" survives
truncation. -/
theorem c7_graphite_line_and_batch_witness :
    (∀ c ∈ (['h', 'o', 's', 't'] : List Char), c ≠ '.') ∧
    shortHost (String.mk (['h', 'o', 's', 't'] ++ '.' :: ['c', 'o', 'm'])) =
      String.mk ['h', 'o', 's', 't'] :=
  ⟨by decide, c7_graphite_line_and_batch.2.1 _ _ (by decide)⟩

/-! ### Record tokenization lemmas -/

theorem space_cases {c : Char} (h : isSpace c = true) :
    c = ' ' ∨ c = '\t' ∨ c = '\n' ∨ c = '\r' ∨ c = '\x0b' ∨ c = '\x0c' := by
  have h' := h
  simp [isSpace] at h'
  tauto

theorem space_not_of_digit {c : Char} (h : Char.isDigit c = true) :
    isSpace c = false := by
  cases hs : isSpace c with
  | false => rfl
  | true =>
    rcases space_cases hs with rfl | rfl | rfl | rfl | rfl | rfl <;>
      exact absurd h (by decide)

theorem nonspace_ne_blank {c : Char} (h : isSpace c = false) : c ≠ ' ' :=
  fun hc => by subst hc; exact absurd h (by decide)

theorem dropWhile_space_append (w l : List Char) (hw : w.all isSpace = true) :
    (w ++ l).dropWhile isSpace = l.dropWhile isSpace := by
  induction w with
  | nil => rfl
  | cons c w ih =>
    rw [List.all_cons, Bool.and_eq_true] at hw
    simp [List.dropWhile_cons, hw.1, ih hw.2]

theorem dropWhile_nonspace_head {c : Char} (l : List Char)
    (hc : isSpace c = false) : (c :: l).dropWhile isSpace = c :: l := by
  simp [List.dropWhile_cons, hc]

theorem dropWhile_stay_append {p : Char → Bool} (l l' : List Char)
    (h : l.dropWhile p ≠ []) :
    (l ++ l').dropWhile p = l.dropWhile p ++ l' := by
  induction l with
  | nil => exact absurd rfl h
  | cons c cs ih =>
    cases hp : p c with
    | true =>
      have h' : cs.dropWhile p ≠ [] := by
        simpa [List.dropWhile_cons, hp] using h
      simp [List.dropWhile_cons, hp, ih h']
    | false => simp [List.dropWhile_cons, hp]

theorem rstrip_space_append (l w : List Char) (hw : w.all isSpace = true) :
    rstrip (l ++ w) = rstrip l := by
  unfold rstrip
  rw [List.reverse_append, dropWhile_space_append _ _ (by simpa using hw)]

theorem rstrip_word {f : List Char} (h : neWord f) : rstrip f = f := by
  unfold rstrip
  cases hr : f.reverse with
  | nil =>
    simp [List.reverse_eq_nil_iff.mp hr]
  | cons c cs =>
    have hcmem : c ∈ f := by
      rw [← List.mem_reverse, hr]; simp
    have hc : isSpace c = false := by
      have := List.all_eq_true.mp h.2 c hcmem
      simpa using this
    rw [dropWhile_nonspace_head cs hc, ← hr, List.reverse_reverse]

theorem rstrip_append_word (a X : List Char) (hX : rstrip X = X)
    (hne : X ≠ []) : rstrip (a ++ X) = a ++ X := by
  have hdw : X.reverse.dropWhile isSpace = X.reverse := by
    have := congrArg List.reverse hX
    rwa [rstrip, List.reverse_reverse] at this
  have hne' : X.reverse.dropWhile isSpace ≠ [] := by
    rw [hdw]
    simpa using hne
  unfold rstrip
  rw [List.reverse_append, dropWhile_stay_append _ _ hne', hdw,
    List.reverse_append, List.reverse_reverse, List.reverse_reverse]

theorem rstrip_join :
    ∀ (rest : List (List Char × List Char)) (f0 : List Char), neWord f0 →
      (∀ p ∈ rest, neSpace p.1 ∧ neWord p.2) →
      rstrip (f0 ++ tailJoin rest) = f0 ++ tailJoin rest := by
  intro rest
  induction rest with
  | nil => intro f0 h0 _; simpa [tailJoin] using rstrip_word h0
  | cons p r ih =>
    intro f0 h0 hr
    obtain ⟨s, g⟩ := p
    have hg := (hr (s, g) (by simp)).2
    have hX : rstrip (g ++ tailJoin r) = g ++ tailJoin r :=
      ih g hg fun q hq => hr q (by simp [hq])
    have hne : g ++ tailJoin r ≠ [] := fun hc =>
      hg.1 (List.append_eq_nil.mp hc).1
    have step := rstrip_append_word (f0 ++ s) (g ++ tailJoin r) hX hne
    calc rstrip (f0 ++ tailJoin ((s, g) :: r)) =
          rstrip ((f0 ++ s) ++ (g ++ tailJoin r)) := by
            simp [tailJoin, List.append_assoc]
      _ = (f0 ++ s) ++ (g ++ tailJoin r) := step
      _ = f0 ++ tailJoin ((s, g) :: r) := by
            simp [tailJoin, List.append_assoc]

theorem collapseAux_word (f l : List Char)
    (hf : f.all (fun c => !isSpace c) = true) :
    collapseAux false (f ++ l) = f ++ collapseAux false l := by
  induction f with
  | nil => rfl
  | cons c f ih =>
    rw [List.all_cons, Bool.and_eq_true] at hf
    have hc' : isSpace c = false := by simpa using hf.1
    simp [collapseAux, hc', ih hf.2]

theorem collapseAux_run (s l : List Char) (hs : s.all isSpace = true) :
    collapseAux true (s ++ l) = collapseAux true l := by
  induction s with
  | nil => rfl
  | cons c s ih =>
    rw [List.all_cons, Bool.and_eq_true] at hs
    simp [collapseAux, hs.1, ih hs.2]

theorem collapseAux_true_head {c : Char} (hc : isSpace c = false)
    (cs : List Char) : collapseAux true (c :: cs) = collapseAux false (c :: cs) := by
  simp [collapseAux, hc]

theorem collapse_join :
    ∀ (rest : List (List Char × List Char)) (f0 : List Char), neWord f0 →
      (∀ p ∈ rest, neSpace p.1 ∧ neWord p.2) →
      collapseAux false (f0 ++ tailJoin rest) = f0 ++ spacedTail rest := by
  intro rest
  induction rest with
  | nil =>
    intro f0 h0 _
    simpa [tailJoin, spacedTail, collapseAux] using collapseAux_word f0 [] h0.2
  | cons p r ih =>
    intro f0 h0 hr
    obtain ⟨s, g⟩ := p
    have hs := (hr (s, g) (by simp)).1
    have hg := (hr (s, g) (by simp)).2
    obtain ⟨c, s', rfl⟩ : ∃ c s', s = c :: s' := by
      cases s with
      | nil => exact absurd rfl hs.1
      | cons c s' => exact ⟨c, s', rfl⟩
    obtain ⟨d, g', rfl⟩ : ∃ d g', g = d :: g' := by
      cases g with
      | nil => exact absurd rfl hg.1
      | cons d g' => exact ⟨d, g', rfl⟩
    have hsplit := hs.2
    rw [List.all_cons, Bool.and_eq_true] at hsplit
    obtain ⟨hc, hs'⟩ := hsplit
    have hd : isSpace d = false := by
      have hgsplit := hg.2
      rw [List.all_cons, Bool.and_eq_true] at hgsplit
      simpa using hgsplit.1
    have hrest' : ∀ q ∈ r, neSpace q.1 ∧ neWord q.2 :=
      fun q hq => hr q (by simp [hq])
    calc collapseAux false (f0 ++ tailJoin ((c :: s', d :: g') :: r)) =
          collapseAux false
            (f0 ++ ((c :: s') ++ ((d :: g') ++ tailJoin r))) := by
            simp [tailJoin, List.append_assoc]
      _ = f0 ++ collapseAux false
            ((c :: s') ++ ((d :: g') ++ tailJoin r)) :=
            collapseAux_word f0 _ h0.2
      _ = f0 ++ ' ' :: collapseAux true (s' ++ ((d :: g') ++ tailJoin r)) := by
            simp [collapseAux, hc]
      _ = f0 ++ ' ' :: collapseAux true ((d :: g') ++ tailJoin r) := by
            rw [collapseAux_run s' _ hs']
      _ = f0 ++ ' ' :: collapseAux false ((d :: g') ++ tailJoin r) := by
            rw [List.cons_append, collapseAux_true_head hd]
      _ = f0 ++ spacedTail ((c :: s', d :: g') :: r) := by
            rw [ih (d :: g') hg hrest']
            simp [spacedTail]

theorem splitSp_word_single :
    ∀ (f : List Char), f.all (fun c => !isSpace c) = true → splitSp f = [f] := by
  intro f
  induction f with
  | nil => intro _; rfl
  | cons c cs ih =>
    intro h
    rw [List.all_cons, Bool.and_eq_true] at h
    have hc : c ≠ ' ' := nonspace_ne_blank (by simpa using h.1)
    simp [splitSp, hc, ih h.2]

theorem splitSp_word_append :
    ∀ (f l : List Char), f.all (fun c => !isSpace c) = true →
      splitSp (f ++ ' ' :: l) = f :: splitSp l := by
  intro f
  induction f with
  | nil => intro l _; simp [splitSp]
  | cons c cs ih =>
    intro l h
    rw [List.all_cons, Bool.and_eq_true] at h
    have hc : c ≠ ' ' := nonspace_ne_blank (by simpa using h.1)
    simp [splitSp, hc, ih l h.2]

theorem split_spaced :
    ∀ (rest : List (List Char × List Char)) (f0 : List Char), neWord f0 →
      (∀ p ∈ rest, neWord p.2) →
      splitSp (f0 ++ spacedTail rest) = f0 :: rest.map (fun p => p.2) := by
  intro rest
  induction rest with
  | nil =>
    intro f0 h0 _
    simpa [spacedTail] using splitSp_word_single f0 h0.2
  | cons p r ih =>
    intro f0 h0 hr
    obtain ⟨s, g⟩ := p
    have hg := hr (s, g) (by simp)
    calc splitSp (f0 ++ spacedTail ((s, g) :: r)) =
          splitSp (f0 ++ ' ' :: (g ++ spacedTail r)) := by simp [spacedTail]
      _ = f0 :: splitSp (g ++ spacedTail r) := splitSp_word_append f0 _ h0.2
      _ = f0 :: (g :: r.map (fun p => p.2)) := by
          rw [ih g hg fun q hq => hr q (by simp [hq])]
      _ = f0 :: ((s, g) :: r).map (fun p => p.2) := by simp

/-- The full parsing pipeline of `BlockStat.collect` on a record made of
non-empty whitespace-free fields joined by non-empty whitespace runs, with
arbitrary (possibly empty) leading and trailing whitespace: it recovers
exactly the fields. -/
theorem pipeline_join (w0 w1 f0 : List Char)
    (rest : List (List Char × List Char)) (h0 : neWord f0)
    (hrest : ∀ p ∈ rest, neSpace p.1 ∧ neWord p.2)
    (hw0 : w0.all isSpace = true) (hw1 : w1.all isSpace = true) :
    pipelineFields (String.mk (w0 ++ (f0 ++ tailJoin rest) ++ w1)) =
      f0 :: rest.map (fun p => p.2) := by
  obtain ⟨c, f0', rfl⟩ : ∃ c f0', f0 = c :: f0' := by
    cases f0 with
    | nil => exact absurd rfl h0.1
    | cons c f0' => exact ⟨c, f0', rfl⟩
  have hc : isSpace c = false := by
    have h := h0.2
    rw [List.all_cons, Bool.and_eq_true] at h
    simpa using h.1
  show splitSp (collapseWs (rstrip (lstrip
    ((w0 ++ ((c :: f0') ++ tailJoin rest)) ++ w1)))) = _
  have hl : lstrip ((w0 ++ ((c :: f0') ++ tailJoin rest)) ++ w1) =
      ((c :: f0') ++ tailJoin rest) ++ w1 := by
    unfold lstrip
    rw [List.append_assoc, dropWhile_space_append w0 _ hw0]
    exact dropWhile_nonspace_head _ hc
  rw [hl, rstrip_space_append _ _ hw1, rstrip_join rest (c :: f0') h0 hrest]
  show splitSp (collapseAux false ((c :: f0') ++ tailJoin rest)) = _
  rw [collapse_join rest (c :: f0') h0 hrest]
  exact split_spaced rest (c :: f0') h0 fun p hp => (hrest p hp).2

/-! ### Collect loop lemmas -/

theorem digit_ne_signs {c : Char} (h : Char.isDigit c = true) :
    c ≠ '-' ∧ c ≠ '+' :=
  ⟨fun hc => by subst hc; exact absurd h (by decide),
   fun hc => by subst hc; exact absurd h (by decide)⟩

theorem pyInt_digits {f : List Char} (h : digitsWord f) :
    ∃ v : Int, pyInt f = some v := by
  obtain ⟨c, ds, rfl⟩ : ∃ c ds, f = c :: ds := by
    cases f with
    | nil => exact absurd rfl h.1
    | cons c ds => exact ⟨c, ds, rfl⟩
  have hall := h.2
  have hc : Char.isDigit c = true := by
    rw [List.all_cons, Bool.and_eq_true] at hall
    exact hall.1
  obtain ⟨hm, hp⟩ := digit_ne_signs hc
  refine ⟨((c :: ds).foldl (fun a c => 10 * a + (c.toNat - 48)) 0 : Nat), ?_⟩
  simp [pyInt, hm, hp, digitsVal, h.2]

theorem digitsWord_neWord {f : List Char} (h : digitsWord f) : neWord f := by
  refine ⟨h.1, List.all_eq_true.mpr fun c hc => ?_⟩
  have := List.all_eq_true.mp h.2 c hc
  simp [space_not_of_digit this]

theorem statType_value_lt (t : StatType) : t.value < 11 := by
  cases t <;> decide

theorem statType_mem_all (t : StatType) : t ∈ StatType.all := by
  cases t <;> decide

theorem collectLoop_ok (fields : List (List Char)) :
    ∀ (ts : List StatType), ts.Nodup → ∀ (stats : StatType → Option Int),
      (∀ t ∈ ts, ∃ g v, fields.get? t.value = some g ∧ pyInt g = some v) →
      ∃ stats', collectLoop stats fields ts = Except.ok stats' ∧
        (∀ t ∈ ts, stats' t = (fields.get? t.value).bind pyInt) ∧
        (∀ t, t ∉ ts → stats' t = stats t) := by
  intro ts
  induction ts with
  | nil => intro _ stats _; exact ⟨stats, rfl, by simp, fun t _ => rfl⟩
  | cons t₀ rest ih =>
    intro hnodup stats h
    obtain ⟨g, v, hget, hint⟩ := h t₀ (by simp)
    have hnd' : rest.Nodup := (List.nodup_cons.mp hnodup).2
    have ht₀ : t₀ ∉ rest := (List.nodup_cons.mp hnodup).1
    obtain ⟨stats', heq, hin, hout⟩ :=
      ih hnd' (dictInsert stats t₀ v) fun t ht => h t (by simp [ht])
    have hget' : fields[t₀.value]? = some g := by
      rw [← List.get?_eq_getElem?]; exact hget
    refine ⟨stats', ?_, ?_, ?_⟩
    · simp [collectLoop, hget', hint, heq]
    · intro t ht
      rcases List.mem_cons.mp ht with rfl | htr
      · rw [hout t ht₀]
        simp [dictInsert, hget', hint]
      · exact hin t htr
    · intro t ht
      have h1 : t ∉ rest := fun hc => ht (by simp [hc])
      have h2 : t ≠ t₀ := fun hc => ht (by simp [hc])
      rw [hout t h1]
      simp [dictInsert, h2]

theorem collectLoop_error (fields : List (List Char)) (f : List Char) :
    ∀ (ts : List StatType), ts.Pairwise (fun a b => a.value < b.value) →
      ∀ (stats : StatType → Option Int) (t : StatType), t ∈ ts →
      (∀ u : StatType, u.value < t.value →
        ∃ g v, fields.get? u.value = some g ∧ pyInt g = some v) →
      fields.get? t.value = some f → pyInt f = none →
      collectLoop stats fields ts = Except.error PyErr.valueError := by
  intro ts
  induction ts with
  | nil => intro _ _ t ht; exact absurd ht (by simp)
  | cons u₀ rest ih =>
    intro hpw stats t ht hu hget hnone
    rcases List.mem_cons.mp ht with rfl | htr
    · have hget' : fields[t.value]? = some f := by
        rw [← List.get?_eq_getElem?]; exact hget
      simp [collectLoop, hget', hnone]
    · have hlt : u₀.value < t.value := (List.pairwise_cons.mp hpw).1 t htr
      obtain ⟨g, v, hg, hv⟩ := hu u₀ hlt
      simp only [collectLoop, hg, hv]
      exact ih (List.pairwise_cons.mp hpw).2 _ t htr hu hget hnone

theorem collectAll_error (now : Int) (fs : String → Option String) (e : PyErr) :
    ∀ (pre : List BlockStatState) (st : BlockStatState)
      (post : List BlockStatState),
      (∀ p ∈ pre, ∃ p', collect p now (fs p.block) = Except.ok p') →
      collect st now (fs st.block) = Except.error e →
      collectAll now fs (pre ++ st :: post) = Except.error e := by
  intro pre
  induction pre with
  | nil => intro st post _ hst; simp [collectAll, hst]
  | cons p pre ih =>
    intro st post h hst
    obtain ⟨p', hp⟩ := h p (by simp)
    simp [collectAll, hp, Except.map,
      ih st post (fun q hq => h q (by simp [hq])) hst]

/-- C5: for every record of 11 whitespace-separated decimal integer fields
(arbitrary leading/trailing whitespace, arbitrary whitespace runs as
separators), `collect` succeeds and produces a state whose values mapping
has exactly the eleven StatType keys, each mapped to the integer parsed from
the field at position `StatType.value`. -/
theorem c5_collect_valid_record :
    ∀ (st : BlockStatState) (now : Int) (w0 w1 f0 : List Char)
      (rest : List (List Char × List Char)),
      digitsWord f0 → (∀ p ∈ rest, neSpace p.1 ∧ digitsWord p.2) →
      w0.all isSpace = true → w1.all isSpace = true → rest.length = 10 →
      ∃ st', collect st now
          (some (String.mk (w0 ++ (f0 ++ tailJoin rest) ++ w1))) =
            Except.ok st' ∧
        st'.time = now ∧
        (∀ t : StatType, st'.stats t =
          ((f0 :: rest.map fun p => p.2).get? t.value).bind pyInt) ∧
        (∀ t : StatType, (st'.stats t).isSome = true) := by
  intro st now w0 w1 f0 rest h0 hrest hw0 hw1 hlen
  have hpipe := pipeline_join w0 w1 f0 rest (digitsWord_neWord h0)
    (fun p hp => ⟨(hrest p hp).1, digitsWord_neWord (hrest p hp).2⟩) hw0 hw1
  set fields := f0 :: rest.map (fun p => p.2) with hfieldsdef
  have hflen : fields.length = 11 := by simp [hfieldsdef, hlen]
  have hdig : ∀ g ∈ fields, digitsWord g := by
    intro g hg
    rcases List.mem_cons.mp hg with rfl | hg'
    · exact h0
    · obtain ⟨p, hp, rfl⟩ := List.mem_map.mp hg'
      exact (hrest p hp).2
  have hexists : ∀ t : StatType, ∃ g v,
      fields.get? t.value = some g ∧ pyInt g = some v := by
    intro t
    have hlt : t.value < fields.length := by
      rw [hflen]; exact statType_value_lt t
    obtain ⟨g, hg⟩ : ∃ g, fields.get? t.value = some g :=
      ⟨fields.get ⟨t.value, hlt⟩, List.get?_eq_get hlt⟩
    obtain ⟨v, hv⟩ := pyInt_digits (hdig g (List.get?_mem hg))
    exact ⟨g, v, hg, hv⟩
  obtain ⟨stats', heq, hin, _⟩ := collectLoop_ok fields StatType.all
    (by decide) st.stats fun t _ => hexists t
  refine ⟨⟨st.block, stats', now⟩, ?_, rfl, ?_, ?_⟩
  · simp only [collect]
    rw [hpipe, heq]
    rfl
  · intro t
    exact hin t (statType_mem_all t)
  · intro t
    show (stats' t).isSome = true
    rw [hin t (statType_mem_all t)]
    obtain ⟨g, v, hg, hv⟩ := hexists t
    rw [hg]
    simp [hv]

/-- Witness for C5 at the concrete record
`" 1 2\t3 4 5 6 7 8 9 10 11\n"`. -/
theorem c5_collect_valid_record_witness :
    (digitsWord ['1'] ∧ (∀ p ∈ c5Rest, neSpace p.1 ∧ digitsWord p.2) ∧
      ([' '] : List Char).all isSpace = true ∧
      (['\n'] : List Char).all isSpace = true ∧ c5Rest.length = 10) ∧
    (∃ st', collect (BlockStat.init "sda") 5
        (some (String.mk ([' '] ++ (['1'] ++ tailJoin c5Rest) ++ ['\n']))) =
          Except.ok st' ∧
      st'.time = 5 ∧
      (∀ t : StatType, st'.stats t =
        ((['1'] :: c5Rest.map fun p => p.2).get? t.value).bind pyInt) ∧
      (∀ t : StatType, (st'.stats t).isSome = true)) :=
  ⟨⟨by decide, by decide, by decide, by decide, by decide⟩,
    c5_collect_valid_record (BlockStat.init "sda") 5 [' '] ['\n'] ['1'] c5Rest
      (by decide) (by decide) (by decide) (by decide) (by decide)⟩

/-- C6: on a readable record whose field at position `t.value` fails integer
conversion (all earlier positions converting fine), `collect` raises
`ValueError` instead of returning a sample; the raise propagates out of the
collection loop of `_do_metrics` (no handler), while a device whose file is
unreadable yields a normal return and does not abort the loop. -/
theorem c6_bad_field_fatal :
    ∀ (st : BlockStatState) (now : Int) (s : String) (t : StatType)
      (f : List Char),
      (pipelineFields s).get? t.value = some f → pyInt f = none →
      (∀ u : StatType, u.value < t.value →
        (((pipelineFields s).get? u.value).bind pyInt).isSome = true) →
      collect st now (some s) = Except.error PyErr.valueError ∧
      (∀ (fs : String → Option String) (pre post : List BlockStatState),
        fs st.block = some s →
        (∀ p ∈ pre, ∃ p', collect p now (fs p.block) = Except.ok p') →
        collectAll now fs (pre ++ st :: post) =
          Except.error PyErr.valueError) ∧
      (∀ stU : BlockStatState, ∃ stU',
        collect stU now none = Except.ok stU') := by
  intro st now s t f hget hnone hu
  have hu' : ∀ u : StatType, u.value < t.value →
      ∃ g v, (pipelineFields s).get? u.value = some g ∧ pyInt g = some v := by
    intro u hlt
    have h1 := hu u hlt
    cases hg : (pipelineFields s).get? u.value with
    | none => rw [hg] at h1; simp at h1
    | some g =>
      rw [hg, Option.some_bind] at h1
      cases hv : pyInt g with
      | none => rw [hv] at h1; simp at h1
      | some v => exact ⟨g, v, rfl, hv⟩
  have hcl := collectLoop_error (pipelineFields s) f StatType.all (by decide)
    st.stats t (statType_mem_all t) hu' hget hnone
  have hcol : collect st now (some s) = Except.error PyErr.valueError := by
    simp only [collect]
    rw [hcl]
    rfl
  refine ⟨hcol, fun fs pre post hfs hpre => ?_, fun stU => ⟨_, rfl⟩⟩
  exact collectAll_error now fs PyErr.valueError pre st post hpre
    (by rw [hfs]; exact hcol)

/-- Witness for C6 at the concrete record `"1 2 3 4 5 6 7 8 9 x 11"`, whose
field at position 9 (`io_ticks`) is not an integer. -/
theorem c6_bad_field_fatal_witness :
    ((pipelineFields "1 2 3 4 5 6 7 8 9 x 11").get?
        StatType.io_ticks.value = some ['x'] ∧
      pyInt ['x'] = none) ∧
    collect (BlockStat.init "sda") 5 (some "1 2 3 4 5 6 7 8 9 x 11") =
      Except.error PyErr.valueError ∧
    collectAll 5 (fun _ => some "1 2 3 4 5 6 7 8 9 x 11")
      ([] ++ BlockStat.init "sda" :: []) = Except.error PyErr.valueError :=
  have happ := c6_bad_field_fatal (BlockStat.init "sda") 5
    "1 2 3 4 5 6 7 8 9 x 11" StatType.io_ticks ['x']
    (by decide) (by decide) (by decide)
  ⟨⟨by decide, by decide⟩, happ.1,
    happ.2.1 (fun _ => some "1 2 3 4 5 6 7 8 9 x 11") [] [] rfl (by simp)⟩
